/- Formal model of the gym-tracker weight-tracking logic: the Zustand workout
session store (stores/workoutStore.ts), the persist round-trip of its keyed
session-exercise cache, the SQL aggregate get_exercise_progress_stats, and the
chart trend-line fit (components/ProgressChart.tsx).  Weights (SQL DECIMAL /
JS number) are modelled as rationals, timestamps as integers, row ids as
strings.  Remote calls are modelled with an explicit failure oracle: `none`
means the call succeeds and its write takes effect, `some msg` that it fails.
The supabase client resolves failures as error values rather than throwing;
`startWorkoutSession` checks that value and throws it into its catch block,
while `recordWeight` and `completeWorkoutSession` discard it, so there a
failure only means the remote write does not take effect and execution
continues past it, exactly as in the source. -/
import Mathlib

namespace GymTracker

/-- A row of the `progress_history` table: an immutable weight observation
for one exercise (`exercise_id UUID`, `weight DECIMAL`, `created_at`). -/
structure ProgressRow where
  exercise_id : String
  weight : ℚ
  created_at : Int
deriving DecidableEq

/-- A row of `workout_sessions`: one practice of a training day, open while
`completed_at` is unset. -/
structure WorkoutSession where
  id : String
  day_id : String
  started_at : Int
  completed_at : Option Int
deriving DecidableEq

/-- A cached per-set entry of the `sessionExercises` map of the store.  It carries
exactly the fields the store writes: `recordWeight` builds
`{ ...existing, exercise_id, session_id, weight_used, sets_completed }` and
`completeSet` sets `reps_completed`. -/
structure SessionEntry where
  exercise_id : String
  session_id : String
  weight_used : Option ℚ
  sets_completed : Nat
  reps_completed : Option String
deriving DecidableEq

/-- The remote (Supabase) tables touched by the workout store. -/
structure Remote where
  workout_sessions : List WorkoutSession
  progress_history : List ProgressRow
  session_exercises : List SessionEntry
deriving DecidableEq

/-- The client store state (`WorkoutStore` in stores/workoutStore.ts).  The
JS `Map` `sessionExercises` is modelled as its entry list in insertion order,
with `Map.get` / `Map.set` modelled below. -/
structure Store where
  currentSession : Option WorkoutSession
  sessionExercises : List (String × SessionEntry)
  isLoading : Bool
  error : Option String
deriving DecidableEq

/-- Combined client + remote state. -/
structure AppState where
  store : Store
  remote : Remote
deriving DecidableEq

/-- JS `Map.get k`: the value of the first (unique) entry with key `k`. -/
def mapGet (m : List (String × SessionEntry)) (k : String) : Option SessionEntry :=
  (m.find? (fun p => p.1 == k)).map Prod.snd

/-- JS `Map.set k v`: replace the value in place if the key is present,
otherwise append the new entry (JS Maps keep insertion order). -/
def mapSet (m : List (String × SessionEntry)) (k : String) (v : SessionEntry) :
    List (String × SessionEntry) :=
  if m.any (fun p => p.1 == k) then
    m.map (fun p => if p.1 == k then (k, v) else p)
  else m ++ [(k, v)]

/-- JS `new Map(entries)`: rebuild a Map by inserting the entries in order.
This is the `onRehydrateStorage` step of the persist middleware. -/
def mapFromEntries (l : List (String × SessionEntry)) : List (String × SessionEntry) :=
  l.foldl (fun m p => mapSet m p.1 p.2) []

/-- The serialization step of the persist middleware:
`Array.from(state.sessionExercises.entries())`. -/
def persistEntries (st : Store) : List (String × SessionEntry) :=
  st.sessionExercises

/-- The cache key, the exercise id and the set index joined by a dash. -/
def sessionKey (exerciseId : String) (setIndex : Nat) : String :=
  exerciseId ++ "-" ++ toString setIndex

/-- Action `startWorkoutSession(dayId)`: sets `isLoading`/clears `error`, inserts a
new `workout_sessions` row (id and `started_at` supplied by the backend, here
parameters), and on success caches it as `currentSession`; on failure the
catch block records the message in `error`. -/
def startWorkoutSession (s : AppState) (dayId newId : String) (now : Int)
    (fail : Option String) : AppState :=
  let st := { s.store with isLoading := true, error := none }
  match fail with
  | some msg => { s with store := { st with error := some msg, isLoading := false } }
  | none =>
      let ws : WorkoutSession :=
        { id := newId, day_id := dayId, started_at := now, completed_at := none }
      { store := { st with currentSession := some ws, isLoading := false },
        remote := { s.remote with workout_sessions := s.remote.workout_sessions ++ [ws] } }

/-- Action `recordWeight(exerciseId, weight, setIndex)`: a no-op when no session is
active; otherwise issues the `progress_history` insert and then updates the
cache entry at the key built by `sessionKey`, setting `weight_used` and
computing `sets_completed := (existing?.sets_completed || 0) + 1`.  The
source discards the result of the insert without an error check (there is no
`if (error) throw` here, unlike `startWorkoutSession`), so a failed insert
(`fail = some msg`) only means no row is appended: execution continues, the
cache is still updated, and the error field is never touched — the catch
block is unreachable from a remote failure. -/
def recordWeight (s : AppState) (exerciseId : String) (weight : ℚ) (setIndex : Nat)
    (now : Int) (fail : Option String) : AppState :=
  match s.store.currentSession with
  | none => s
  | some cur =>
      let remote1 :=
        match fail with
        | some _ => s.remote
        | none =>
            { s.remote with
              progress_history := s.remote.progress_history ++
                [{ exercise_id := exerciseId, weight := weight, created_at := now }] }
      let key := sessionKey exerciseId setIndex
      let existing := mapGet s.store.sessionExercises key
      let updated : SessionEntry :=
        { exercise_id := exerciseId
          session_id := cur.id
          weight_used := some weight
          sets_completed := (match existing with
            | some e => e.sets_completed
            | none => 0) + 1
          reps_completed := match existing with
            | some e => e.reps_completed
            | none => none }
      { store := { s.store with
          sessionExercises := mapSet s.store.sessionExercises key updated },
        remote := remote1 }

/-- Action `completeSet(exerciseId, setIndex, reps)`: local-only; if the cache entry
exists, store the performed reps on it. -/
def completeSet (s : AppState) (exerciseId : String) (setIndex : Nat) (reps : String) :
    AppState :=
  let key := sessionKey exerciseId setIndex
  match mapGet s.store.sessionExercises key with
  | none => s
  | some e =>
      { s with store := { s.store with
          sessionExercises := mapSet s.store.sessionExercises key
            { e with reps_completed := some reps } } }

/-- The filter `Array.from(sessionExercises.values()).filter(ex =>
ex.weight_used && ex.weight_used > 0)` of `completeWorkoutSession`. -/
def exercisesToSave (m : List (String × SessionEntry)) : List SessionEntry :=
  (m.map Prod.snd).filter (fun e =>
    match e.weight_used with
    | some w => decide (0 < w)
    | none => false)

/-- Action `completeWorkoutSession()`: a no-op when no session is active;
otherwise issues the `completed_at` update, bulk-inserts the cached entries
with a positive recorded weight into `session_exercises`, and clears the
local cache.  `updateFail`/`insertFail` are the failure oracles of the two
remote calls.  The source discards both results without an error check, so a
failure only means that write does not take effect: execution always reaches
the unconditional cache-clearing `set` call, and the error field is never
touched — the catch block is unreachable from a remote failure. -/
def completeWorkoutSession (s : AppState) (now : Int)
    (updateFail insertFail : Option String) : AppState :=
  match s.store.currentSession with
  | none => s
  | some cur =>
      let remote1 :=
        match updateFail with
        | some _ => s.remote
        | none =>
            { s.remote with
              workout_sessions := s.remote.workout_sessions.map (fun ws =>
                if ws.id == cur.id then { ws with completed_at := some now } else ws) }
      let toSave := exercisesToSave s.store.sessionExercises
      let remote2 :=
        if toSave.isEmpty then remote1
        else
          match insertFail with
          | some _ => remote1
          | none =>
              { remote1 with session_exercises := remote1.session_exercises ++ toSave }
      { store :=
          { s.store with
              currentSession := none, sessionExercises := [], isLoading := false },
        remote := remote2 }

/-- The query of `loadCurrentSession`: open sessions (`completed_at` unset)
for the day, ordered by `started_at` descending, limited to one row.  Ties on
`started_at` are broken deterministically (first in table order). -/
def latestOpenSession (r : Remote) (dayId : String) : Option WorkoutSession :=
  match r.workout_sessions.filter (fun ws =>
      ws.day_id == dayId && ws.completed_at == none) with
  | [] => none
  | x :: xs => some (xs.foldl (fun a ws => if a.started_at < ws.started_at then ws else a) x)

/-- Action `loadCurrentSession(dayId)`: caches the most recent open session for the
day if one exists; the `.single()` error on zero rows is swallowed by the
catch block, leaving the state unchanged. -/
def loadCurrentSession (s : AppState) (dayId : String) : AppState :=
  match latestOpenSession s.remote dayId with
  | none => s
  | some ws => { s with store := { s.store with currentSession := some ws } }

/-- Action `clearSession()`: local-only reset of the session cache and error. -/
def clearSession (s : AppState) : AppState :=
  { s with store :=
      { s.store with currentSession := none, sessionExercises := [], error := none } }

/-- One user-triggered invocation of a store action, together with the
backend-chosen values (fresh id, current time) and the failure oracles of its
remote calls. -/
inductive Op where
  | start (dayId newId : String) (now : Int) (fail : Option String)
  | record (exerciseId : String) (weight : ℚ) (setIndex : Nat) (now : Int)
      (fail : Option String)
  | finishSet (exerciseId : String) (setIndex : Nat) (reps : String)
  | complete (now : Int) (updateFail insertFail : Option String)
  | load (dayId : String)
  | clear
deriving DecidableEq

/-- Interpretation of one operation. -/
def step (s : AppState) : Op → AppState
  | .start dayId newId now fail => startWorkoutSession s dayId newId now fail
  | .record exerciseId weight setIndex now fail =>
      recordWeight s exerciseId weight setIndex now fail
  | .finishSet exerciseId setIndex reps => completeSet s exerciseId setIndex reps
  | .complete now updateFail insertFail => completeWorkoutSession s now updateFail insertFail
  | .load dayId => loadCurrentSession s dayId
  | .clear => clearSession s

/-- The initial state: empty store (the initial fields of the store) and empty
remote tables. -/
def initState : AppState :=
  { store :=
      { currentSession := none, sessionExercises := [], isLoading := false, error := none },
    remote := { workout_sessions := [], progress_history := [], session_exercises := [] } }

/-- The state reached from the initial state by a sequence of operations. -/
def runOps (ops : List Op) : AppState :=
  ops.foldl step initState

/-- Number of open (`completed_at` unset) sessions a day has in the remote
store. -/
def openSessionCount (r : Remote) (dayId : String) : Nat :=
  r.workout_sessions.countP (fun ws => ws.day_id == dayId && ws.completed_at == none)

/-- The result row of the SQL function `get_exercise_progress_stats`.
Aggregates over an empty set are NULL, modelled as `none`. -/
structure Stats where
  total_sessions : Nat
  max_weight : Option ℚ
  min_weight : Option ℚ
  avg_weight : Option ℚ
  latest_weight : Option ℚ
  weight_progression : ℚ
deriving DecidableEq

/-- SQL `MAX(weight)` over the filtered rows. -/
def maxWeight : List ProgressRow → Option ℚ
  | [] => none
  | x :: xs => some (xs.foldl (fun b r => max b r.weight) x.weight)

/-- SQL `MIN(weight)` over the filtered rows. -/
def minWeight : List ProgressRow → Option ℚ
  | [] => none
  | x :: xs => some (xs.foldl (fun b r => min b r.weight) x.weight)

/-- SQL `AVG(weight)` over the filtered rows. -/
def avgWeight : List ProgressRow → Option ℚ
  | [] => none
  | x :: xs => some (((x :: xs).map ProgressRow.weight).sum / (x :: xs).length)

/-- The row with `ROW_NUMBER() OVER (ORDER BY created_at DESC) = 1`, i.e. the
greatest `created_at`; ties are broken deterministically (first in table
order, where SQL leaves the choice unspecified). -/
def latestRow : List ProgressRow → Option ProgressRow
  | [] => none
  | x :: xs => some (xs.foldl (fun a r => if a.created_at < r.created_at then r else a) x)

/-- Aggregate `latest_weight`: the weight of the most recent row. -/
def latestWeight (l : List ProgressRow) : Option ℚ :=
  (latestRow l).map ProgressRow.weight

/-- The aggregation body of `get_exercise_progress_stats` over the filtered
rows: count, max, min, avg, latest, and
`CASE WHEN total_sessions > 1 THEN (latest - min) / min * 100 ELSE 0 END`.
When the count exceeds 1 the `latest`/`min` aggregates are present, so the
`getD 0` defaults are never consulted in that branch. -/
def statsOf (l : List ProgressRow) : Stats :=
  { total_sessions := l.length
    max_weight := maxWeight l
    min_weight := minWeight l
    avg_weight := avgWeight l
    latest_weight := latestWeight l
    weight_progression :=
      if 1 < l.length then
        ((latestWeight l).getD 0 - (minWeight l).getD 0) / (minWeight l).getD 0 * 100
      else 0 }

/-- The WHERE clause of `get_exercise_progress_stats`: rows of the exercise,
restricted to the optional inclusive date range. -/
def filterRows (rows : List ProgressRow) (exerciseId : String)
    (startDate endDate : Option Int) : List ProgressRow :=
  rows.filter (fun r =>
    r.exercise_id == exerciseId
      && (match startDate with
          | none => true
          | some sd => decide (sd ≤ r.created_at))
      && (match endDate with
          | none => true
          | some ed => decide (r.created_at ≤ ed)))

/-- The SQL function `get_exercise_progress_stats(p_exercise_id,
p_start_date, p_end_date)` over the `progress_history` table `rows`. -/
def get_exercise_progress_stats (rows : List ProgressRow) (p_exercise_id : String)
    (p_start_date p_end_date : Option Int) : Stats :=
  statsOf (filterRows rows p_exercise_id p_start_date p_end_date)

/-- Function `calculateTrendLine` from components/ProgressChart.tsx: identity on
inputs of fewer than two points, otherwise the least-squares fitted value at
each index position. -/
def calculateTrendLine (data : List ℚ) : List ℚ :=
  if data.length < 2 then data
  else
    let n : ℚ := data.length
    let sumX : ℚ := (data.enum.map (fun p => (p.1 : ℚ))).sum
    let sumY : ℚ := data.sum
    let sumXY : ℚ := (data.enum.map (fun p => (p.1 : ℚ) * p.2)).sum
    let sumXX : ℚ := (data.enum.map (fun p => (p.1 : ℚ) * (p.1 : ℚ))).sum
    let slope : ℚ := (n * sumXY - sumX * sumY) / (n * sumXX - sumX * sumX)
    let intercept : ℚ := (sumY - slope * sumX) / n
    data.enum.map (fun p => slope * (p.1 : ℚ) + intercept)

/-- Spec-side definition for comparison with `calculateTrendLine`: the
closed-form ordinary least-squares slope over index positions `0..n-1`, as
the spec describes it. -/
def specOlsSlope (data : List ℚ) : ℚ :=
  let n : ℚ := data.length
  let sumX : ℚ := (data.enum.map (fun p => (p.1 : ℚ))).sum
  let sumY : ℚ := data.sum
  let sumXY : ℚ := (data.enum.map (fun p => (p.1 : ℚ) * p.2)).sum
  let sumXX : ℚ := (data.enum.map (fun p => (p.1 : ℚ) * (p.1 : ℚ))).sum
  (n * sumXY - sumX * sumY) / (n * sumXX - sumX * sumX)

/-- Spec-side definition for comparison with `calculateTrendLine`: the
closed-form ordinary least-squares intercept over index positions
`0..n-1`. -/
def specOlsIntercept (data : List ℚ) : ℚ :=
  let n : ℚ := data.length
  let sumX : ℚ := (data.enum.map (fun p => (p.1 : ℚ))).sum
  (data.sum - specOlsSlope data * sumX) / n



/-! Concrete fixtures used by witnesses. -/

/-- The worked example of the spec: observations 60, 65, 70 in time order. -/
def exampleRows : List ProgressRow :=
  [{ exercise_id := "e", weight := 60, created_at := 0 },
   { exercise_id := "e", weight := 65, created_at := 1 },
   { exercise_id := "e", weight := 70, created_at := 2 }]

/-- An open workout session used by witnesses. -/
def exampleSession : WorkoutSession :=
  { id := "s1", day_id := "d", started_at := 0, completed_at := none }

/-- A cached entry with a positive recorded weight, used by witnesses. -/
def exampleEntry : SessionEntry :=
  { exercise_id := "e", session_id := "s1", weight_used := some 50,
    sets_completed := 1, reps_completed := none }

/-- A state with an active session and an empty cache, used by witnesses. -/
def exampleState : AppState :=
  { store :=
      { currentSession := some exampleSession, sessionExercises := [],
        isLoading := false, error := none },
    remote :=
      { workout_sessions := [exampleSession], progress_history := [],
        session_exercises := [] } }

/-- A state with an active session and one positive-weight cache entry. -/
def exampleState2 : AppState :=
  { store :=
      { currentSession := some exampleSession,
        sessionExercises := [("e-0", exampleEntry)],
        isLoading := false, error := none },
    remote :=
      { workout_sessions := [exampleSession], progress_history := [],
        session_exercises := [] } }

/-! Helper lemmas about the fold-based aggregates. -/

theorem le_foldl_max (xs : List ProgressRow) (a : ℚ) :
    a ≤ xs.foldl (fun b r => max b r.weight) a := by
  induction xs generalizing a with
  | nil => exact le_refl a
  | cons y ys ih =>
    rw [List.foldl_cons]
    exact le_trans (le_max_left a y.weight) (ih (max a y.weight))

theorem mem_weight_le_foldl_max (xs : List ProgressRow) (a : ℚ) (r : ProgressRow)
    (hr : r ∈ xs) : r.weight ≤ xs.foldl (fun b r => max b r.weight) a := by
  induction xs generalizing a with
  | nil => cases hr
  | cons y ys ih =>
    rw [List.foldl_cons]
    rcases List.mem_cons.mp hr with h | h
    · subst h
      exact le_trans (le_max_right a r.weight) (le_foldl_max ys _)
    · exact ih _ h

theorem foldl_min_le (xs : List ProgressRow) (a : ℚ) :
    xs.foldl (fun b r => min b r.weight) a ≤ a := by
  induction xs generalizing a with
  | nil => exact le_refl a
  | cons y ys ih =>
    rw [List.foldl_cons]
    exact le_trans (ih (min a y.weight)) (min_le_left a y.weight)

theorem foldl_min_le_mem_weight (xs : List ProgressRow) (a : ℚ) (r : ProgressRow)
    (hr : r ∈ xs) : xs.foldl (fun b r => min b r.weight) a ≤ r.weight := by
  induction xs generalizing a with
  | nil => cases hr
  | cons y ys ih =>
    rw [List.foldl_cons]
    rcases List.mem_cons.mp hr with h | h
    · subst h
      exact le_trans (foldl_min_le ys _) (min_le_right a r.weight)
    · exact ih _ h

theorem foldl_latest_pick_mem (xs : List ProgressRow) (a : ProgressRow) :
    xs.foldl (fun a r => if a.created_at < r.created_at then r else a) a = a ∨
      xs.foldl (fun a r => if a.created_at < r.created_at then r else a) a ∈ xs := by
  induction xs generalizing a with
  | nil => exact Or.inl rfl
  | cons y ys ih =>
    rw [List.foldl_cons]
    rcases ih (if a.created_at < y.created_at then y else a) with h | h
    · rw [h]
      by_cases hc : a.created_at < y.created_at
      · rw [if_pos hc]
        exact Or.inr (List.mem_cons_self _ _)
      · rw [if_neg hc]
        exact Or.inl rfl
    · exact Or.inr (List.mem_cons_of_mem _ h)

theorem le_foldl_latest (xs : List ProgressRow) (a : ProgressRow) :
    a.created_at ≤
      (xs.foldl (fun a r => if a.created_at < r.created_at then r else a) a).created_at := by
  induction xs generalizing a with
  | nil => exact le_refl _
  | cons y ys ih =>
    rw [List.foldl_cons]
    refine le_trans ?_ (ih _)
    by_cases hc : a.created_at < y.created_at
    · rw [if_pos hc]
      exact le_of_lt hc
    · rw [if_neg hc]

theorem mem_le_foldl_latest (xs : List ProgressRow) (a r : ProgressRow) (hr : r ∈ xs) :
    r.created_at ≤
      (xs.foldl (fun a r => if a.created_at < r.created_at then r else a) a).created_at := by
  induction xs generalizing a with
  | nil => cases hr
  | cons y ys ih =>
    rw [List.foldl_cons]
    rcases List.mem_cons.mp hr with h | h
    · subst h
      refine le_trans ?_ (le_foldl_latest ys _)
      by_cases hc : a.created_at < r.created_at
      · rw [if_pos hc]
      · rw [if_neg hc]
        exact le_of_not_lt hc
    · exact ih _ h

/-! Helper lemmas about the JS Map model. -/

theorem keys_map_replace (m : List (String × SessionEntry)) (k : String) (v : SessionEntry) :
    (m.map (fun p => if p.1 == k then (k, v) else p)).map Prod.fst = m.map Prod.fst := by
  induction m with
  | nil => rfl
  | cons q qs ih =>
    by_cases hq : q.1 == k
    · simp only [List.map_cons, hq, if_pos, ih]
      rw [eq_of_beq hq]
    · simp only [List.map_cons, ih]
      rw [if_neg hq]

theorem nodup_keys_mapSet (m : List (String × SessionEntry)) (k : String) (v : SessionEntry)
    (h : (m.map Prod.fst).Nodup) : ((mapSet m k v).map Prod.fst).Nodup := by
  unfold mapSet
  by_cases hc : m.any (fun p => p.1 == k)
  · rw [if_pos hc, keys_map_replace]
    exact h
  · rw [if_neg hc, List.map_append]
    have hk : k ∉ m.map Prod.fst := by
      intro hmem
      obtain ⟨p, hp, hpk⟩ := List.mem_map.mp hmem
      exact hc (List.any_eq_true.mpr ⟨p, hp, by simp [hpk]⟩)
    simp [List.nodup_append, h, hk]

theorem mapSet_not_mem_eq_append (m : List (String × SessionEntry)) (k : String)
    (v : SessionEntry) (hk : k ∉ m.map Prod.fst) : mapSet m k v = m ++ [(k, v)] := by
  unfold mapSet
  rw [if_neg]
  simp only [List.any_eq_true, not_exists, not_and]
  intro p hp hbeq
  exact hk (List.mem_map.mpr ⟨p, hp, eq_of_beq hbeq⟩)

theorem foldl_mapSet_append (l : List (String × SessionEntry)) :
    ∀ acc : List (String × SessionEntry), ((acc ++ l).map Prod.fst).Nodup →
      l.foldl (fun m p => mapSet m p.1 p.2) acc = acc ++ l := by
  induction l with
  | nil => intro acc _; simp
  | cons q qs ih =>
    intro acc h
    have hk : q.1 ∉ acc.map Prod.fst := by
      rw [List.map_append] at h
      rcases List.nodup_append.mp h with ⟨-, -, hdisj⟩
      intro hmem
      exact hdisj hmem (by simp)
    rw [List.foldl_cons, mapSet_not_mem_eq_append acc q.1 q.2 hk]
    have hrec := ih (acc ++ [(q.1, q.2)]) (by simpa using h)
    simpa using hrec

theorem mapFromEntries_eq_self (l : List (String × SessionEntry))
    (h : (l.map Prod.fst).Nodup) : mapFromEntries l = l := by
  have := foldl_mapSet_append l [] (by simpa using h)
  simpa [mapFromEntries] using this

/-! The key-uniqueness invariant of the session cache. -/

theorem nodup_keys_step (s : AppState) (op : Op)
    (h : (s.store.sessionExercises.map Prod.fst).Nodup) :
    ((step s op).store.sessionExercises.map Prod.fst).Nodup := by
  cases op with
  | start dayId newId now fail =>
    cases fail <;> simpa [step, startWorkoutSession] using h
  | record exerciseId weight setIndex now fail =>
    cases hcur : s.store.currentSession with
    | none => simpa [step, recordWeight, hcur] using h
    | some cur =>
      simp only [step, recordWeight, hcur]
      exact nodup_keys_mapSet _ _ _ h
  | finishSet exerciseId setIndex reps =>
    cases hget : mapGet s.store.sessionExercises (sessionKey exerciseId setIndex) with
    | none => simpa [step, completeSet, hget] using h
    | some e =>
      simp only [step, completeSet, hget]
      exact nodup_keys_mapSet _ _ _ h
  | complete now updateFail insertFail =>
    cases hcur : s.store.currentSession with
    | none => simpa [step, completeWorkoutSession, hcur] using h
    | some cur => simp [step, completeWorkoutSession, hcur]
  | load dayId =>
    cases hlo : latestOpenSession s.remote dayId with
    | none => simpa [step, loadCurrentSession, hlo] using h
    | some ws => simpa [step, loadCurrentSession, hlo] using h
  | clear => simp [step, clearSession]

theorem nodup_keys_runOps (ops : List Op) :
    ((runOps ops).store.sessionExercises.map Prod.fst).Nodup := by
  suffices hgen : ∀ s : AppState, (s.store.sessionExercises.map Prod.fst).Nodup →
      ((ops.foldl step s).store.sessionExercises.map Prod.fst).Nodup by
    exact hgen initState (by simp [initState])
  induction ops with
  | nil => intro s hs; exact hs
  | cons op rest ih =>
    intro s hs
    exact ih _ (nodup_keys_step s op hs)


/-! Claim theorems. -/

/-- Claim C1 (code bug): at a concrete state with an active session, a
failed `progress_history` insert is not surfaced — the source never checks
the returned error value, unlike `startWorkoutSession` — so the per-set
cache entry keyed by the exercise id and set index is still written with
`sets_completed` incremented to 1, the error field stays null, and the
remote table receives no row.  This diverges from the claim, which requires
the cache entry to stay unmodified and the error to be surfaced. -/
theorem C1_failed_insert_still_updates_cache :
    (recordWeight exampleState "e" 50 0 5 (some "boom")).store.sessionExercises =
        [("e-0", exampleEntry)] ∧
      (recordWeight exampleState "e" 50 0 5 (some "boom")).store.error = none ∧
      (recordWeight exampleState "e" 50 0 5 (some "boom")).remote.progress_history = [] := by
  decide

/-- Claim C10: `recordWeight` with no active session is a complete no-op:
no remote insert, no cache change, no error, for any outcome of the (never
issued) remote call. -/
theorem C10_recordWeight_no_session_noop (s : AppState) (exerciseId : String) (weight : ℚ)
    (setIndex : Nat) (now : Int) (fail : Option String)
    (h : s.store.currentSession = none) :
    recordWeight s exerciseId weight setIndex now fail = s := by
  unfold recordWeight
  rw [h]

/-- Witness for C10 at the initial state. -/
theorem C10_witness :
    initState.store.currentSession = none ∧
      recordWeight initState "e" 50 0 5 (some "boom") = initState :=
  ⟨rfl, C10_recordWeight_no_session_noop initState "e" 50 0 5 (some "boom") rfl⟩

/-- Claim C2 (code bug): at a concrete state with an active session and one
cached entry with a positive recorded weight, a failed `session_exercises`
bulk insert is not surfaced — the source never checks either returned error
value — so execution reaches the unconditional cache-clearing `set` call:
`currentSession` and `sessionExercises` are cleared, the error field stays
null, and no rows reach `session_exercises`.  This diverges from the claim,
which requires the error to be surfaced and the cache kept. -/
theorem C2_failed_bulk_insert_still_clears_cache :
    exercisesToSave exampleState2.store.sessionExercises = [exampleEntry] ∧
      (completeWorkoutSession exampleState2 7 none (some "boom")).store.currentSession =
        none ∧
      (completeWorkoutSession exampleState2 7 none (some "boom")).store.sessionExercises =
        [] ∧
      (completeWorkoutSession exampleState2 7 none (some "boom")).store.error = none ∧
      (completeWorkoutSession exampleState2 7 none
        (some "boom")).remote.session_exercises = [] := by
  decide

/-- Counterexample to claim C4 as stated: the state reached by starting a
session twice for the same day (both inserts succeeding) holds two open
sessions for that day, so the at-most-one-open-session-per-day property does
not hold in every reachable state. -/
theorem C4_counterexample :
    ¬ ∀ (ops : List Op) (day : String), openSessionCount (runOps ops).remote day ≤ 1 := by
  intro hinv
  have h2 : openSessionCount
      (runOps [.start "d" "s1" 0 none, .start "d" "s2" 1 none]).remote "d" = 2 := by decide
  have hle := hinv [.start "d" "s1" 0 none, .start "d" "s2" 1 none] "d"
  omega

/-- Amended claim C4: the session-cache operations do not enforce the
single-open-session rule; a successful `startWorkoutSession` unconditionally
inserts a fresh open session for the given day, so that open-session
count of the day always grows by one, even when a session is already open. -/
theorem C4_amended_start_always_adds_open_session (s : AppState) (dayId newId : String)
    (now : Int) :
    openSessionCount (startWorkoutSession s dayId newId now none).remote dayId =
      openSessionCount s.remote dayId + 1 := by
  unfold startWorkoutSession openSessionCount
  simp [List.countP_append]

/-- Claim C9: for every state reachable through the store operations,
serializing the keyed `sessionExercises` cache (the persist serialization
step) and rebuilding the Map from the entries array (`onRehydrateStorage`)
yields an equivalent keyed mapping: the same entry list, hence the same
value at every key. -/
theorem C9_persist_roundtrip (ops : List Op) :
    mapFromEntries (persistEntries (runOps ops).store) =
        (runOps ops).store.sessionExercises ∧
      ∀ k : String, mapGet (mapFromEntries (persistEntries (runOps ops).store)) k =
        mapGet (runOps ops).store.sessionExercises k := by
  have h := mapFromEntries_eq_self _ (nodup_keys_runOps ops)
  refine ⟨h, fun k => ?_⟩
  rw [show persistEntries (runOps ops).store = (runOps ops).store.sessionExercises from rfl, h]


/-- Claim C3: over any (filtered) observation list, `weight_progression`
equals `(latest - min) / min * 100` when the count exceeds 1 and equals 0
when the count is 0 or 1; on the observations 60, 65, 70 in time order the
RPC returns `(70 - 60) / 60 * 100`. -/
theorem C3_progression_formula (l : List ProgressRow) :
    (∀ lw mw : ℚ, 1 < l.length → latestWeight l = some lw → minWeight l = some mw →
        (statsOf l).weight_progression = (lw - mw) / mw * 100) ∧
      (l.length ≤ 1 → (statsOf l).weight_progression = 0) ∧
      (get_exercise_progress_stats exampleRows "e" none none).weight_progression =
        (70 - 60) / 60 * 100 := by
  refine ⟨?_, ?_, ?_⟩
  · intro lw mw h1 h2 h3
    simp only [statsOf, h2, h3, Option.getD_some, if_pos h1]
  · intro h1
    simp only [statsOf, if_neg (by omega : ¬ 1 < l.length)]
  · have hf : filterRows exampleRows "e" none none = exampleRows := by decide
    have h1 : 1 < exampleRows.length := by decide
    have h2 : latestWeight exampleRows = some 70 := by decide
    have h3 : minWeight exampleRows = some 60 := by decide
    simp only [get_exercise_progress_stats, hf, statsOf, h2, h3, Option.getD_some, if_pos h1]

/-- Witness for C3 at the worked example of the spec. -/
theorem C3_witness :
    1 < exampleRows.length ∧
      (statsOf exampleRows).weight_progression = (70 - 60) / 60 * 100 :=
  ⟨by decide, (C3_progression_formula exampleRows).1 70 60 (by decide) (by decide) (by decide)⟩

/-- Claim C5: on the empty observation sequence the statistics computation
returns count 0, progression 0, and NULL max, min, mean and latest, without
dividing. -/
theorem C5_empty_stats :
    statsOf [] = ⟨0, none, none, none, none, 0⟩ ∧
      get_exercise_progress_stats [] "e" none none = ⟨0, none, none, none, none, 0⟩ :=
  ⟨rfl, rfl⟩

/-- Claim C6: on any non-empty observation list the computed aggregates
satisfy `max ≥ mean ≥ min`, and the computed latest value is the weight of
an observation whose timestamp is greatest. -/
theorem C6_nonempty_stats_order (l : List ProgressRow) (h : l ≠ []) :
    ∃ M m a r, maxWeight l = some M ∧ minWeight l = some m ∧ avgWeight l = some a ∧
      latestRow l = some r ∧ latestWeight l = some r.weight ∧ m ≤ a ∧ a ≤ M ∧
      r ∈ l ∧ ∀ x ∈ l, x.created_at ≤ r.created_at := by
  cases l with
  | nil => exact absurd rfl h
  | cons x xs =>
    have hn : (0 : ℚ) < ((x :: xs).length : ℚ) := by
      exact_mod_cast Nat.succ_pos xs.length
    refine ⟨_, _, _, _, rfl, rfl, rfl, rfl, rfl, ?_, ?_, ?_, ?_⟩
    · have hb : ∀ w ∈ (x :: xs).map ProgressRow.weight,
          xs.foldl (fun b r => min b r.weight) x.weight ≤ w := by
        intro w hw
        obtain ⟨r, hr, rfl⟩ := List.mem_map.mp hw
        rcases List.mem_cons.mp hr with h1 | h1
        · rw [h1]
          exact foldl_min_le xs x.weight
        · exact foldl_min_le_mem_weight xs x.weight r h1
      have hsum := List.card_nsmul_le_sum ((x :: xs).map ProgressRow.weight) _ hb
      rw [List.length_map, nsmul_eq_mul] at hsum
      rw [le_div_iff₀ hn, mul_comm]
      exact hsum
    · have hb : ∀ w ∈ (x :: xs).map ProgressRow.weight,
          w ≤ xs.foldl (fun b r => max b r.weight) x.weight := by
        intro w hw
        obtain ⟨r, hr, rfl⟩ := List.mem_map.mp hw
        rcases List.mem_cons.mp hr with h1 | h1
        · rw [h1]
          exact le_foldl_max xs x.weight
        · exact mem_weight_le_foldl_max xs x.weight r h1
      have hsum := List.sum_le_card_nsmul ((x :: xs).map ProgressRow.weight) _ hb
      rw [List.length_map, nsmul_eq_mul] at hsum
      rw [div_le_iff₀ hn, mul_comm]
      exact hsum
    · rcases foldl_latest_pick_mem xs x with h1 | h1
      · rw [h1]
        exact List.mem_cons_self _ _
      · exact List.mem_cons_of_mem _ h1
    · intro z hz
      rcases List.mem_cons.mp hz with h1 | h1
      · rw [h1]
        exact le_foldl_latest xs x
      · exact mem_le_foldl_latest xs x z h1

/-- Witness for C6 at the worked example of the spec. -/
theorem C6_witness :
    exampleRows ≠ [] ∧
      (∃ M m a r, maxWeight exampleRows = some M ∧ minWeight exampleRows = some m ∧
        avgWeight exampleRows = some a ∧ latestRow exampleRows = some r ∧
        latestWeight exampleRows = some r.weight ∧ m ≤ a ∧ a ≤ M ∧
        r ∈ exampleRows ∧ ∀ x ∈ exampleRows, x.created_at ≤ r.created_at) :=
  ⟨by decide, C6_nonempty_stats_order exampleRows (by decide)⟩

/-- Rewriting an index-only map over `enum` as a map over `range`. -/
theorem enum_map_fst_comp (data : List ℚ) (f : ℕ → ℚ) :
    data.enum.map (fun p => f p.1) = (List.range data.length).map f := by
  rw [show (fun p : ℕ × ℚ => f p.1) = f ∘ Prod.fst from rfl, ← List.map_map,
    List.enum_map_fst]

/-- On at least two points, `calculateTrendLine` is the fitted line of the
closed-form least-squares coefficients at each index position. -/
theorem calculateTrendLine_eq_fit (data : List ℚ) (h : 2 ≤ data.length) :
    calculateTrendLine data =
      data.enum.map (fun p => specOlsSlope data * (p.1 : ℚ) + specOlsIntercept data) := by
  unfold calculateTrendLine specOlsSlope specOlsIntercept
  unfold specOlsSlope
  rw [if_neg (by omega)]

/-- Claim C7: on any input of length at least 2, `calculateTrendLine`
returns the sequence whose i-th element is `slope * i + intercept` for the
closed-form ordinary least-squares coefficients over index positions
`0..n-1`; on `[10, 20, 30]` it returns `[10, 20, 30]` with slope 10 and
intercept 10. -/
theorem C7_trendline_least_squares (data : List ℚ) (h : 2 ≤ data.length) :
    calculateTrendLine data =
        (List.range data.length).map
          (fun (i : ℕ) => specOlsSlope data * (i : ℚ) + specOlsIntercept data) ∧
      calculateTrendLine [10, 20, 30] = [10, 20, 30] ∧
      specOlsSlope [10, 20, 30] = 10 ∧ specOlsIntercept [10, 20, 30] = 10 := by
  refine ⟨?_, ?_, ?_, ?_⟩
  · rw [calculateTrendLine_eq_fit data h]
    exact enum_map_fst_comp data
      (fun (i : ℕ) => specOlsSlope data * (i : ℚ) + specOlsIntercept data)
  · norm_num [calculateTrendLine, List.enum]
  · norm_num [specOlsSlope, List.enum]
  · norm_num [specOlsIntercept, specOlsSlope, List.enum]

/-- Witness for C7 at the worked example of the spec. -/
theorem C7_witness :
    2 ≤ ([10, 20, 30] : List ℚ).length ∧
      calculateTrendLine [10, 20, 30] =
        (List.range ([10, 20, 30] : List ℚ).length).map
          (fun (i : ℕ) =>
            specOlsSlope [10, 20, 30] * (i : ℚ) + specOlsIntercept [10, 20, 30]) :=
  ⟨by decide, (C7_trendline_least_squares [10, 20, 30] (by decide)).1⟩

/-- Claim C8: on inputs of fewer than two points, `calculateTrendLine`
returns its input unchanged. -/
theorem C8_short_input_identity (data : List ℚ) (h : data.length < 2) :
    calculateTrendLine data = data := by
  unfold calculateTrendLine
  rw [if_pos h]

/-- Witness for C8 at a one-element input. -/
theorem C8_witness :
    ([42] : List ℚ).length < 2 ∧ calculateTrendLine [42] = [42] :=
  ⟨by decide, C8_short_input_identity [42] (by decide)⟩

end GymTracker
